import Mathlib

/-!
# Verification of the kvarn web-server core against its specification

Shallow embedding of the cache, extension-registry, CORS, prime-hook,
compression-negotiation and error-page code of the kvarn repository
(`src/lib.rs`, `src/extensions.rs`, `src/utility.rs`), together with
theorems settling the specification claims about that code.

Conventions:
* Rust `HashMap<K, Arc<V>>` is modelled as an association list
  `List (K × V)` without duplicate keys; `Arc` sharing is dropped
  (values are immutable here, so sharing is unobservable).
* The unspecified iteration order of `HashMap::iter` is modelled by an
  explicit oracle `pick : List (K × V) → Option K` standing for
  `map.iter().next()`; theorems assume only what `iter().next()`
  guarantees, namely that a nonempty map yields one of its keys.
* A Rust function that can panic is modelled as returning `Option`,
  `none` standing for the panic.
-/

namespace Kvarn

/-! ## `Cache<K, V>` — src/lib.rs lines 1517-1591 -/

/-- `struct Cache<K, V> { map: HashMap<K, Arc<V>>, max_items: usize, size_limit: usize }`. -/
structure Cache (K V : Type) where
  map : List (K × V)
  max_items : Nat
  size_limit : Nat

variable {K V : Type}

/-- `HashMap::insert`: binds `k` to `v`, replacing any previous binding of `k`. -/
def mapInsert [DecidableEq K] (l : List (K × V)) (k : K) (v : V) : List (K × V) :=
  (k, v) :: l.filter (fun p => decide (p.1 ≠ k))

/-- `HashMap::remove(&k)`: drops the binding of `k`, if any. -/
def mapRemove [DecidableEq K] (l : List (K × V)) (k : K) : List (K × V) :=
  l.filter (fun p => decide (p.1 ≠ k))

/-- `HashMap::get(&k)`: the value bound to `k`, if any. -/
def mapGet [DecidableEq K] (l : List (K × V)) (k : K) : Option V :=
  (l.find? (fun p => decide (p.1 = k))).map (·.2)

/-- `Cache::cache` (src/lib.rs 1525-1537).  Rust signature
`fn cache(&mut self, key: K, value: Arc<V>) -> Result<(), Arc<V>>`; we return
the value handed back on `Err` together with the (then unchanged) cache state.
`size` is the `Size` impl for `V`; `pick` models `self.map.iter().next()`. -/
def Cache.cache [DecidableEq K] (size : V → Nat) (pick : List (K × V) → Option K)
    (c : Cache K V) (key : K) (value : V) : Option V × Cache K V :=
  if size value > c.size_limit then
    (some value, c)
  else
    -- `if self.map.len() >= self.max_items { .. remove an arbitrary entry .. }`
    let m :=
      if c.map.length ≥ c.max_items then
        match pick c.map with
        | some last => mapRemove c.map last
        | none => c.map
      else c.map
    (none, { c with map := mapInsert m key value })

/-- `Cache::get` (src/lib.rs 1573-1578). -/
def Cache.get [DecidableEq K] (c : Cache K V) (key : K) : Option V :=
  mapGet c.map key

/-- `Cache::remove` (src/lib.rs 1584-1586); the returned value is dropped here. -/
def Cache.remove [DecidableEq K] (c : Cache K V) (key : K) : Cache K V :=
  { c with map := mapRemove c.map key }

/-- `Cache::clear` (src/lib.rs 1588-1590). -/
def Cache.clear (c : Cache K V) : Cache K V :=
  { c with map := [] }

/-- One operation of the `Cache` public mutating interface. -/
inductive CacheOp (K V : Type) where
  | cache (key : K) (value : V)
  | remove (key : K)
  | clear

/-- Run one operation (the `Err` of an oversized insert is discarded, as callers do). -/
def applyOp [DecidableEq K] (size : V → Nat) (pick : List (K × V) → Option K)
    (c : Cache K V) : CacheOp K V → Cache K V
  | .cache k v => (c.cache size pick k v).2
  | .remove k => c.remove k
  | .clear => c.clear

/-- Run a sequence of cache operations from left to right. -/
def applyOps [DecidableEq K] (size : V → Nat) (pick : List (K × V) → Option K)
    (c : Cache K V) (ops : List (CacheOp K V)) : Cache K V :=
  ops.foldl (applyOp size pick) c

/-- The oracle `pick` behaves like `HashMap::iter().next()`:
on a nonempty map it yields the key of one of the entries. -/
def PickValid (pick : List (K × V) → Option K) : Prop :=
  ∀ l : List (K × V), l ≠ [] → ∃ p ∈ l, pick l = some p.1

/-- A concrete `iter().next()` oracle used in witnesses: head of the association list. -/
def pickHead : List (Nat × List Nat) → Option Nat := fun l => l.head?.map (·.1)

/-! ## `Id` and `add_sort_list!` — src/extensions.rs lines 92-193

Each priority-ordered extension list (`prime`, `prepare_fn`, `package`, `post`)
is a `Vec<(Id, payload..)>`; we model it as `List (Id × α)`, with `i32`
priorities as `Int` (all values produced by the code lie in the `i32` range).
`PartialEq`/`Ord` on `Id` compare only `priority` (src/extensions.rs 145-160),
so `binary_search_by(|probe| id.cmp(&probe.0))` on a strictly-descending,
duplicate-free list finds the unique entry of equal priority (`Ok`) or the
insertion point before the first strictly-smaller priority (`Err`). -/

/-- `i32::MIN`. -/
def i32Min : Int := -(2 ^ 31)

/-- `struct Id { priority: i32, name: Option<&'static str>, no_override: bool }`. -/
structure Id where
  priority : Int
  name : Option String
  no_override : Bool
deriving DecidableEq, Repr

/-- The priorities of the entries of an extension list, in list order. -/
def priorities {α : Type} (l : List (Id × α)) : List Int :=
  l.map (fun p => p.1.priority)

/-- `binary_search_by` returned `Ok`: some entry has this priority. -/
def hasPriority {α : Type} (l : List (Id × α)) (p : Int) : Bool :=
  l.any (fun q => q.1.priority = p)

/-- The `Ok(pos)` branch `$list[pos] = (id, ..)`: overwrite the (on a
duplicate-free list unique) entry whose priority equals `id.priority`. -/
def replaceAt {α : Type} (l : List (Id × α)) (id : Id) (v : α) : List (Id × α) :=
  l.map (fun q => if q.1.priority = id.priority then (id, v) else q)

/-- The `Err(pos)` branch `$list.insert(pos, (id, ..))`: insert keeping the
list sorted by strictly descending priority (before the first entry whose
priority is smaller than `id.priority`). -/
def insertDesc {α : Type} (id : Id) (v : α) : List (Id × α) → List (Id × α)
  | [] => [(id, v)]
  | q :: rest =>
    if q.1.priority > id.priority then q :: insertDesc id v rest
    else (id, v) :: q :: rest

/-- `add_sort_list!` (src/extensions.rs 169-193).  `none` models the
`panic!("reached minimum priority ..")` after `checked_sub(1)` fails, which
happens exactly when the current priority is `i32::MIN` (an `i32` is never
below `i32::MIN`; the guard `i32Min < id.priority` also keeps the model total
on out-of-range integers, sending them to the panic case). -/
def addSortList {α : Type} (l : List (Id × α)) (id : Id) (v : α) :
    Option (List (Id × α)) :=
  if hasPriority l id.priority then
    if id.no_override then
      if _h : i32Min < id.priority then
        addSortList l { id with priority := id.priority - 1 } v
      else none
    else some (replaceAt l id v)
  else some (insertDesc id v l)
termination_by (id.priority - i32Min).toNat
decreasing_by omega

/-! ## `Extensions::resolve_prime` — src/extensions.rs lines 526-549

A prime extension is modelled as a function from the current request URI to
the optional URI it returns; `http::Uri` is modelled by its path, which is
all `resolve_prime` inspects (`prime.path().starts_with("/./")`). -/

/-- Rust `str::starts_with`, modelled on the character list (Lean's own
`String.startsWith` is not kernel-reducible). -/
def strStartsWith (s pre : String) : Bool :=
  pre.data.isPrefixOf s.data

/-- One iteration of the `for (_, prime) in &self.prime` loop: the state is
`(request uri, override uri)`.  A returned URI whose path starts with `/./`
is held aside in the override slot; any other returned URI overwrites the
request URI in place. -/
def primeStep (s : String × Option String) (prime : String → Option String) :
    String × Option String :=
  match prime s.1 with
  | none => s
  | some u => if strStartsWith u ("/./") then (s.1, some u) else (u, s.2)

/-- `Extensions::resolve_prime`: run the prime hooks in list order (the list is
kept in descending priority by `add_sort_list!`), chaining URI rewrites through
the mutable request; returns the final request URI and the override URI
(the function's `Option<Uri>` return value). -/
def resolve_prime (prime : List (String → Option String)) (request : String) :
    String × Option String :=
  prime.foldl primeStep (request, none)

/-! ## `into_last` and `ByteResponse::into_body` — src/lib.rs 1088-1105, 1134-1139, 1248-1256 -/

/-- `enum ByteResponse` (src/lib.rs 1134-1139); bytes are modelled as `Nat`s. -/
inductive ByteResponse where
  | Merged (bytes : List Nat) (startsAt : Nat) (partialHead : Bool)
  | Both (head body : List Nat) (partialHead : Bool)
  | Body (body : List Nat)
  | BorrowedBody (body : List Nat)
deriving DecidableEq, Repr

/-- `into_last` (src/lib.rs 1092-1105): `assert!(split_at < len)`, then the
unsafe pointer arithmetic keeps exactly the `len - split_at` initialized
elements after `split_at`.  `none` models the assertion panic. -/
def into_last (vec : List Nat) (split_at : Nat) : Option (List Nat) :=
  if split_at < vec.length then some (vec.drop split_at) else none

/-- `ByteResponse::into_body` (src/lib.rs 1249-1256). -/
def ByteResponse.into_body : ByteResponse → Option (List Nat)
  | .Merged vec starts _ => into_last vec starts
  | .Both _ body _ => some body
  | .Body body => some body
  | .BorrowedBody b => some b

/-! ## `parse::format_list_header` — spec-modelled

`src/parse.rs` is referenced (`pub mod parse;` in src/lib.rs) but is not part
of the snapshot; only its callers are.  The definitions below are therefore
modelled from the spec. -/

/-- Rust `str::contains` on another string, modelled on the character list. -/
def isInfixChars (pat : List Char) : List Char → Bool
  | [] => pat.isEmpty
  | c :: rest => pat.isPrefixOf (c :: rest) || isInfixChars pat rest

/-- Rust `str::contains`. -/
def strContains (s pat : String) : Bool :=
  isInfixChars pat.data s.data

/-- Rust `str::trim` restricted to spaces (the only whitespace in the
quality-list headers the spec describes). -/
def trimChars (l : List Char) : List Char :=
  ((l.dropWhile (fun c => c = ' ')).reverse.dropWhile (fun c => c = ' ')).reverse

/-- Split a character list on a separator (Rust `str::split`). -/
def splitOnChar (sep : Char) : List Char → List (List Char)
  | [] => [[]]
  | c :: rest =>
    match splitOnChar sep rest with
    | [] => if c = sep then [[], []] else [[c]]
    | g :: gs => if c = sep then [] :: g :: gs else (c :: g) :: gs

/-- Digit value of an ASCII character. -/
def digitVal (c : Char) : Option Nat :=
  if c.isDigit then some (c.toNat - 48) else none

/-- Parse a nonempty all-digit character list as a natural number. -/
def charsToNat : List Char → Option Nat
  | [] => none
  | l => l.foldl (fun acc c =>
      match acc, digitVal c with
      | some a, some d => some (a * 10 + d)
      | _, _ => none) (some 0)

/-- Modelled from the spec: an HTTP quality value (`q=0.5`), parsed as a
decimal and stored in thousandths (`1000` = quality `1`); HTTP qvalues carry
at most three decimals, so this representation is exact.  Extra fraction
digits are truncated and a missing fraction part padded with zeros. -/
def parseDecimal1000 (l : List Char) : Option Nat :=
  match splitOnChar '.' l with
  | [i] => (charsToNat i).map (· * 1000)
  | [i, f] =>
    match charsToNat i, charsToNat (f.take 3 ++ List.replicate (3 - f.length) '0') with
    | some a, some b => some (a * 1000 + b)
    | _, _ => none
  | _ => none

/-- Modelled from the spec: `parse::ValueQualitySet { value, quality }` —
one token of a quality-weighted header list; `quality` in thousandths. -/
structure ValueQualitySet where
  value : String
  quality : Nat
deriving DecidableEq, Repr

/-- Modelled from the spec: `parse::format_list_header` — "Parse the request
header … as a quality-weighted list of tokens" (§4.2, §4.3): a comma-separated
list of `value` or `value;q=<decimal>` items, quality defaulting to `1`.
Empty items are skipped; a `q=` part that fails to parse falls back to the
default quality. -/
def format_list_header (header : String) : List ValueQualitySet :=
  (splitOnChar ',' header.data).filterMap (fun part =>
    match splitOnChar ';' part with
    | [] => none
    | v :: params =>
      let value := trimChars v
      if value.isEmpty then none
      else
        let quality :=
          match params.findSome? (fun p =>
            match trimChars p with
            | 'q' :: '=' :: rest => parseDecimal1000 rest
            | _ => none) with
          | some q => q
          | none => 1000
        some ⟨String.mk value, quality⟩)

/-- Rust `u8::to_ascii_lowercase` on one character. -/
def toLowerChar (c : Char) : Char :=
  if 'A' ≤ c ∧ c ≤ 'Z' then Char.ofNat (c.toNat + 32) else c

/-- Rust `str::to_ascii_lowercase`. -/
def toAsciiLower (s : String) : String :=
  String.mk (s.data.map toLowerChar)

/-! ## `CacheType::resolve` — src/lib.rs 1293-1400

`VaryMaster` holds the vary axis names and, per stored variant, the recorded
header values (one per axis, the spec's data-model invariant) and the cached
response, which we abstract by a `Nat` identifier.  The request `HeaderMap` is
modelled as a lookup function returning the header value for a name (header
values are UTF-8 here, so `to_str().ok()` always succeeds). -/

structure VaryMaster where
  vary_headers : List String
  data : List (List String × Nat)

/-- The `results.retain(..)` closure for the axes after the first
(src/lib.rs 1373-1395).  NOTE: the source evaluates
`headers.get(*header_to_compare);` and discards the result, binding
`required_data` to a freshly created empty `Vec`; the comparison code below
the `is_empty` early-`return true` is therefore dead. -/
def laterAxisRetain (headers : String → Option String) (position : Nat)
    (header_to_compare : String) (current : List String × Nat) : Bool :=
  let required_data : List String :=
    (fun _ => []) (headers header_to_compare)
  if required_data.isEmpty then true
  else required_data.any (fun sh =>
    decide ((current.1.get? position).getD "" = sh) || strStartsWith sh ("*"))

/-- `CacheType::resolve` in the `Vary` case (src/lib.rs 1327-1398).
The source starts with `iter.next().unwrap()`, which panics on an empty axis
list; that case is unreachable (every `Vary` entry is built with at least one
axis), and is mapped to `none` here.  `data.0.get(position).unwrap()` is
modelled as `(·.get? position).getD ""`; under the invariant that every
variant records one value per axis the `unwrap` always succeeds. -/
def resolveVary (vary : VaryMaster) (headers : String → Option String) :
    Option Nat :=
  match vary.vary_headers with
  | [] => none
  | name :: rest =>
    let required_data :=
      let data0 :=
        match headers name with
        | some h => format_list_header h
        | none => []
      -- `if name.to_ascii_lowercase() == "accept-encoding"`: push
      -- `identity; q=0.5` unless some token already has value `identity`
      if toAsciiLower name = "accept-encoding" then
        if (data0.find? (fun d => decide (d.value = "identity"))).isNone then
          data0 ++ [⟨"identity", 500⟩]
        else data0
      else data0
    let results := vary.data.filter (fun d =>
      if required_data.isEmpty then true
      else required_data.any (fun sh =>
        decide ((d.1.get? 0).getD "" = sh.value) || strStartsWith sh.value ("*")))
    let results2 := (List.enumFrom 1 rest).foldl
      (fun acc pi => acc.filter (laterAxisRetain headers pi.1 pi.2)) results
    (results2.head?).map (·.2)

/-! ## `compression_from_header` and the compression decision of
`process_request` — src/lib.rs 559-588, 1051-1086 -/

/-- `enum CompressionAlgorithm` (src/lib.rs 1032-1039); the `br` and `gzip`
features of the default build are both enabled. -/
inductive CompressionAlgorithm where
  | Brotli
  | Gzip
  | Identity
deriving DecidableEq, Repr

/-- Stable insert for the descending-quality sort: the new element goes after
all elements of greater-or-equal quality. -/
def insertByQuality (x : ValueQualitySet) :
    List ValueQualitySet → List ValueQualitySet
  | [] => [x]
  | y :: ys => if x.quality ≤ y.quality then y :: insertByQuality x ys
               else x :: y :: ys

/-- `options.sort_by(|a, b| b.quality.partial_cmp(&a.quality).unwrap())`:
Rust's stable sort in descending quality order, modelled as a stable
insertion sort. -/
def sortByQualityDesc : List ValueQualitySet → List ValueQualitySet
  | [] => []
  | x :: xs => insertByQuality x (sortByQualityDesc xs)

/-- `compression_from_header` (src/lib.rs 1051-1086): chosen algorithm plus
the `identity_forbidden` flag (the first `identity` token after the
quality sort has quality `0`). -/
def compression_from_header (header : String) : CompressionAlgorithm × Bool :=
  let options := sortByQualityDesc (format_list_header (toAsciiLower header))
  let identity := options.findIdx? (fun o => decide (o.value = "identity"))
  let identity_forbidden :=
    match identity with
    | some i => decide (((options.get? i).map (·.quality)).getD 1000 = 0)
    | none => false
  if options.isEmpty || options.any (fun o =>
      decide (o.value = "br") && decide (o.quality = 1000)) then
    (.Brotli, identity_forbidden)
  else
    match options.head? with
    | some o =>
      if o.value = "gzip" then (.Gzip, identity_forbidden)
      else if o.value = "br" then (.Brotli, identity_forbidden)
      else (.Identity, identity_forbidden)
    | none => (.Identity, identity_forbidden)

/-- The already-compressed content-type filter of `process_request`
(src/lib.rs 567-576). -/
def isCompressedFamily (content_str : String) : Bool :=
  (strStartsWith content_str ("application")
    && !(strContains content_str ("xml"))
    && !(strContains content_str ("json"))
    && decide (content_str ≠ "application/pdf")
    && decide (content_str ≠ "application/javascript")
    && decide (content_str ≠ "application/graphql"))
  || strStartsWith content_str ("image")
  || strStartsWith content_str ("audio")
  || strStartsWith content_str ("video")

/-- The compression decision of `process_request` (src/lib.rs 559-588):
from the resolved content type and the request's `Accept-Encoding` header
(`None` when absent or not valid UTF-8), compute the chosen algorithm and,
when `byte_response` is replaced by `default_error(406, ..)`, the status of
that replacement error response. -/
def compressionDecision (content_str : String) (acceptEncoding : Option String) :
    CompressionAlgorithm × Option Nat :=
  match acceptEncoding with
  | some header =>
    let ab := compression_from_header header
    if isCompressedFamily content_str then
      if ab.2 then (ab.1, some 406)
      else (.Identity, none)
    else (ab.1, none)
  | none => (.Identity, none)

/-! ## CORS — src/extensions.rs 944-1153

`http::Method` and `http::Uri` belong to the external `http` crate and are
modelled by their interface: a `Uri` exposes its scheme, its authority as the
written `host[:port]` string, the parsed host and port, and the path.
`Uri::try_from` (used to parse the `Origin` header in the non-same-origin
branch) is passed in as an oracle `parseUri`. -/

/-- `http::Method`, restricted to the constructors the server handles. -/
inductive Method where
  | GET
  | HEAD
  | OPTIONS
  | POST
  | PUT
  | DELETE
  | PATCH
deriving DecidableEq, Repr

/-- Interface model of `http::Uri`. -/
structure ModelUri where
  scheme : Option String
  authority : Option String
  host : Option String
  port : Option Nat
  path : String
deriving DecidableEq, Repr

/-- Rust `str::strip_prefix` on character lists. -/
def stripPrefixChars : List Char → List Char → Option (List Char)
  | [], l => some l
  | _ :: _, [] => none
  | p :: ps, c :: cs => if p = c then stripPrefixChars ps cs else none

/-- Rust `str::strip_suffix('*')`. -/
def stripSuffixStar (s : String) : Option String :=
  if s.data.getLast? = some '*' then some (String.mk s.data.dropLast) else none

/-- `struct CorsAllowList` (src/extensions.rs 1081-1086). -/
structure CorsAllowList where
  allowed : List ModelUri
  allow_all_origins : Bool
  methods : List Method
  headers : List String

/-- `struct Cors { rules: Vec<(String, CorsAllowList)> }`. -/
structure Cors where
  rules : List (String × CorsAllowList)

/-- `CorsAllowList::check` (src/extensions.rs 1133-1147).  `add_origin_uri`
asserts that every allowed origin has a host and a scheme; an absent host
(unreachable) is treated as no match instead of the `unwrap` panic. -/
def CorsAllowList.check (al : CorsAllowList) (origin : ModelUri) :
    Option (List Method × List String) :=
  if al.allow_all_origins then some (al.methods, al.headers)
  else
    match al.allowed.find? (fun allowed =>
      let scheme := allowed.scheme.getD ("https")
      allowed.host.isSome && decide (allowed.host = origin.host)
        && decide (allowed.port = origin.port)
        && decide (origin.scheme = some scheme)) with
    | some _ => some (al.methods, al.headers)
    | none => none

/-- Does a rule path match the request path (src/extensions.rs 1013-1017)?
Exact match, or prefix match when the rule ends in `*`. -/
def ruleMatches (path uri_path : String) : Bool :=
  decide (path = uri_path) ||
    (match stripSuffixStar path with
     | some p => strStartsWith uri_path p
     | none => false)

/-- `Cors::check_origin` (src/extensions.rs 1011-1022): the first rule whose
path matches decides — `return allow.check(origin)` leaves no fallthrough to
later rules. -/
def Cors.check_origin (cors : Cors) (origin : ModelUri) (uri_path : String) :
    Option (List Method × List String) :=
  match cors.rules.find? (fun rule => ruleMatches rule.1 uri_path) with
  | some rule => rule.2.check origin
  | none => none

/-- `Cors::is_part_of_origin` (src/extensions.rs 1053-1065): strip `https://`
(respectively `http://`) when the request URI's scheme agrees, then compare
the remainder with the URI's authority string. -/
def Cors.is_part_of_origin (origin : String) (uri : ModelUri) : Bool :=
  match stripPrefixChars (("https://").data) origin.data with
  | some o =>
    if uri.scheme = some "https" then decide (uri.authority = some (String.mk o))
    else false
  | none =>
    match stripPrefixChars (("http://").data) origin.data with
    | some o =>
      if uri.scheme = some "http" then decide (uri.authority = some (String.mk o))
      else false
    | none => false

/-- `Cors::check_cors_request` (src/extensions.rs 1028-1051).  The `Origin`
header is modelled as an optional string (header values here are UTF-8, so
`to_str().ok()` always succeeds); `parseUri` models `Uri::try_from`. -/
def Cors.check_cors_request (cors : Cors) (parseUri : String → Option ModelUri)
    (originHeader : Option String) (uri : ModelUri) (method : Method) :
    Option (List Method × List String) :=
  let same_origin_allowed_headers :=
    ([Method.GET, Method.HEAD, Method.OPTIONS], ([] : List String))
  match originHeader with
  | none => some same_origin_allowed_headers
  | some origin =>
    if Cors.is_part_of_origin origin uri then some same_origin_allowed_headers
    else
      match parseUri origin with
      | some o =>
        match cors.check_origin o uri.path with
        | some r => if r.1.contains method then some r else none
        | none => none
      | none => none

/-! ## `default_error` — src/utility.rs 229-323

Status codes are modelled as `Nat` (the `StatusCode`s reaching
`default_error` are the valid ones the server constructs);
`StatusCode::canonical_reason` is the external `http` crate's table,
modelled for the statuses the server uses.  File-system reads through the
file cache (`read_file_cached`) are modelled as a lookup oracle
`fs : String → Option String`; bodies are strings. -/

/-- Interface model of `http::StatusCode::canonical_reason`. -/
def canonicalReason (code : Nat) : Option String :=
  if code = 200 then some ("OK")
  else if code = 400 then some ("Bad Request")
  else if code = 403 then some ("Forbidden")
  else if code = 404 then some ("Not Found")
  else if code = 405 then some ("Method Not Allowed")
  else if code = 406 then some ("Not Acceptable")
  else if code = 429 then some ("Too Many Requests")
  else if code = 500 then some ("Internal Server Error")
  else if code = 502 then some ("Bad Gateway")
  else if code = 504 then some ("Gateway Timeout")
  else if code = 505 then some ("HTTP Version Not Supported")
  else none

/-- `make_path` (src/utility.rs 229-249): `<base>/<dir>/<file>(.<ext>)`.
`PathBuf::push` inserts one separator between components, and
`set_extension` appends `.<ext>` because the status-code file stem
contains no dot. -/
def make_path (base dir file : String) (extension : Option String) : String :=
  base ++ "/" ++ dir ++ "/" ++ file ++
    (match extension with
     | some e => "." ++ e
     | none => "")

/-- `hardcoded_error_body` (src/utility.rs 257-289). -/
def hardcoded_error_body (code : Nat) (message : Option String) : String :=
  let codeStr := toString code
  let reasonStr :=
    match canonicalReason code with
    | some r => r
    | none => ""
  "<html><head><title>" ++ codeStr ++ " " ++ reasonStr ++
    "</title></head><body><center><h1>" ++ codeStr ++ " " ++ reasonStr ++
    "</h1><hr>An unexpected error occurred. <a href=\x27/\x27>Return home</a>?" ++
    (match message with
     | some m => "<p>" ++ m ++ "</p>"
     | none => "") ++
    "</center></body></html>"

/-- A built `http::Response<Bytes>`, by its observable parts. -/
structure HttpResponse where
  status : Nat
  headers : List (String × String)
  body : String
deriving DecidableEq, Repr

/-- `default_error` (src/utility.rs 297-323).  `host` carries the host's
root path (`host.path`); `fs` is the `read_file_cached` oracle. -/
def default_error (code : Nat) (host : Option String) (message : Option String)
    (fs : String → Option String) : HttpResponse :=
  let body :=
    match host with
    | some hostPath =>
      match fs (make_path hostPath ("errors") (toString code) (some ("html"))) with
      | some file => file
      | none => hardcoded_error_body code message
    | none => hardcoded_error_body code message
  { status := code
    headers :=
      [("content-type", "text/html; charset=utf-8"),
       ("content-encoding", "identity")] ++
      (match message with
       | some m => [("reason", m)]
       | none => [])
    body := body }

theorem mapRemove_length_lt [DecidableEq K] {l : List (K × V)} {k : K}
    (h : ∃ v, (k, v) ∈ l) : (mapRemove l k).length < l.length := by
  obtain ⟨v, hv⟩ := h
  exact List.length_filter_lt_length_iff_exists.mpr ⟨(k, v), hv, by simp⟩

theorem mapRemove_length_le [DecidableEq K] (l : List (K × V)) (k : K) :
    (mapRemove l k).length ≤ l.length :=
  List.length_filter_le _ _

theorem mapInsert_length_le [DecidableEq K] (l : List (K × V)) (k : K) (v : V) :
    (mapInsert l k v).length ≤ l.length + 1 := by
  simp only [mapInsert, List.length_cons]
  exact Nat.succ_le_succ (List.length_filter_le _ _)

/-- Inserting keeps the count within `max_items` (given `max_items ≥ 1`). -/
theorem cache_length_le [DecidableEq K] (size : V → Nat)
    (pick : List (K × V) → Option K) (hpick : PickValid pick)
    (c : Cache K V) (key : K) (value : V)
    (hmax : 1 ≤ c.max_items) (hlen : c.map.length ≤ c.max_items) :
    ((c.cache size pick key value).2).map.length ≤ c.max_items := by
  unfold Cache.cache
  by_cases hsz : size value > c.size_limit
  · simp [hsz, hlen]
  · simp only [hsz, if_false]
    by_cases hfull : c.map.length ≥ c.max_items
    · have hne : c.map ≠ [] := by
        intro h
        rw [h] at hfull
        simp only [List.length_nil] at hfull
        omega
      obtain ⟨p, hp, hpk⟩ := hpick c.map hne
      simp only [hfull, if_true, hpk]
      have h1 : (mapRemove c.map p.1).length < c.map.length :=
        mapRemove_length_lt ⟨p.2, by simpa using hp⟩
      have h2 := mapInsert_length_le (mapRemove c.map p.1) key value
      omega
    · simp only [hfull, if_false]
      have h2 := mapInsert_length_le c.map key value
      omega

theorem applyOp_max_items [DecidableEq K] (size : V → Nat)
    (pick : List (K × V) → Option K) (c : Cache K V) (op : CacheOp K V) :
    (applyOp size pick c op).max_items = c.max_items := by
  cases op with
  | cache k v =>
    simp only [applyOp, Cache.cache]
    split <;> rfl
  | remove k => rfl
  | clear => rfl

theorem applyOp_length_le [DecidableEq K] (size : V → Nat)
    (pick : List (K × V) → Option K) (hpick : PickValid pick)
    (c : Cache K V) (op : CacheOp K V)
    (hmax : 1 ≤ c.max_items) (hlen : c.map.length ≤ c.max_items) :
    (applyOp size pick c op).map.length ≤ c.max_items := by
  cases op with
  | cache k v => exact cache_length_le size pick hpick c k v hmax hlen
  | remove k =>
    exact le_trans (mapRemove_length_le c.map k) hlen
  | clear => simp [applyOp, Cache.clear]

theorem applyOps_invariant [DecidableEq K] (size : V → Nat)
    (pick : List (K × V) → Option K) (hpick : PickValid pick)
    (ops : List (CacheOp K V)) (c : Cache K V)
    (hmax : 1 ≤ c.max_items) (hlen : c.map.length ≤ c.max_items) :
    (applyOps size pick c ops).map.length ≤ (applyOps size pick c ops).max_items ∧
      (applyOps size pick c ops).max_items = c.max_items := by
  induction ops generalizing c with
  | nil => exact ⟨hlen.trans_eq rfl, rfl⟩
  | cons op rest ih =>
    have hmax' := applyOp_max_items size pick c op (V := V)
    have hlen' := applyOp_length_le size pick hpick c op hmax hlen
    have := ih (applyOp size pick c op) (hmax'.symm ▸ hmax) (hmax' ▸ hlen')
    simpa [applyOps, List.foldl_cons, hmax'] using this

theorem pickHead_valid : PickValid pickHead := by
  intro l hl
  match l, hl with
  | p :: rest, _ => exact ⟨p, List.mem_cons_self p rest, rfl⟩

/-- **C1.** For every cache instance, `Cache::cache` of a value whose size exceeds
`size_limit` returns the value back as `Err` and leaves the stored map unchanged;
and after any sequence of `cache`, `remove` and `clear` operations, the number of
stored entries never exceeds `max_items` (an arbitrary entry — the one `iter().next()`
yields — is evicted before an insert that would exceed the count ceiling).
The hypotheses record how the caches are constructed: `Cache::with_max*` assert
`max_items > 1`, and the map starts empty, so `map.length ≤ max_items` holds. -/
theorem cache_insert_limits [DecidableEq K] (size : V → Nat)
    (pick : List (K × V) → Option K) (hpick : PickValid pick)
    (c : Cache K V) (key : K) (value : V)
    (hmax : 1 ≤ c.max_items) (hlen : c.map.length ≤ c.max_items) :
    (size value > c.size_limit → c.cache size pick key value = (some value, c)) ∧
    ∀ ops : List (CacheOp K V),
      (applyOps size pick c ops).map.length ≤ c.max_items := by
  constructor
  · intro h
    unfold Cache.cache
    simp [h]
  · intro ops
    obtain ⟨h1, h2⟩ := applyOps_invariant size pick hpick ops c hmax hlen
    omega

/-- Witness for C1 at concrete inputs: an oversized insert is handed back with the
map untouched, and a concrete operation sequence stays within `max_items = 2`. -/
theorem cache_insert_limits_witness :
    (Cache.cache List.length pickHead ⟨[], 2, 3⟩ 9 [0, 1, 2, 3] =
      (some [0, 1, 2, 3], ⟨[], 2, 3⟩)) ∧
    (applyOps List.length pickHead ⟨[], 2, 3⟩
      [.cache 1 [0], .cache 2 [0], .cache 3 [0], .remove 1, .cache 4 [0],
        .cache 5 [0], .clear, .cache 6 [0]]).map.length ≤ 2 := by
  have h := cache_insert_limits List.length pickHead pickHead_valid
    ⟨[], 2, 3⟩ 9 [0, 1, 2, 3] (by decide) (by decide)
  exact ⟨h.1 (by decide), h.2 _⟩

/-- **C9.** For every key and every value whose size is at most `size_limit`,
`Cache::cache(key, value)` returns `Ok`, and an immediately following
`Cache::get(key)` returns that same value, even when the insert evicted
another entry to respect the count ceiling. -/
theorem cache_get_roundtrip [DecidableEq K] (size : V → Nat)
    (pick : List (K × V) → Option K) (c : Cache K V) (key : K) (value : V)
    (h : size value ≤ c.size_limit) :
    (c.cache size pick key value).1 = none ∧
    ((c.cache size pick key value).2).get key = some value := by
  unfold Cache.cache
  rw [if_neg (by omega)]
  refine ⟨rfl, ?_⟩
  simp [Cache.get, mapGet, mapInsert]

/-- Witness for C9 at a concrete input where the insert also evicts an entry:
the cache is full (`max_items = 2`) before inserting key `7`. -/
theorem cache_get_roundtrip_witness :
    (Cache.cache List.length pickHead ⟨[(1, [0]), (2, [1])], 2, 3⟩ 7 [5, 6]).1 = none ∧
    ((Cache.cache List.length pickHead ⟨[(1, [0]), (2, [1])], 2, 3⟩ 7 [5, 6]).2).get 7 =
      some [5, 6] :=
  cache_get_roundtrip List.length pickHead ⟨[(1, [0]), (2, [1])], 2, 3⟩ 7 [5, 6] (by decide)

/-! ### Lemmas about `add_sort_list!` -/

theorem hasPriority_iff {α : Type} (l : List (Id × α)) (p : Int) :
    hasPriority l p = true ↔ p ∈ priorities l := by
  simp [hasPriority, priorities, List.any_eq_true, List.mem_map]

theorem priorities_replaceAt {α : Type} (l : List (Id × α)) (id : Id) (v : α) :
    priorities (replaceAt l id v) = priorities l := by
  induction l with
  | nil => rfl
  | cons q rest ih =>
    simp only [replaceAt, priorities, List.map_cons] at ih ⊢
    by_cases hq : q.1.priority = id.priority
    · simp [hq, ih]
    · simp [hq, ih]

theorem mem_priorities_insertDesc {α : Type} (id : Id) (v : α) (l : List (Id × α))
    (x : Int) :
    x ∈ priorities (insertDesc id v l) ↔ x = id.priority ∨ x ∈ priorities l := by
  induction l with
  | nil => simp [insertDesc, priorities]
  | cons q rest ih =>
    simp only [insertDesc]
    by_cases hq : q.1.priority > id.priority
    · simp only [hq, if_true, priorities, List.map_cons, List.mem_cons] at ih ⊢
      rw [ih]
      tauto
    · simp only [hq, if_false, priorities, List.map_cons, List.mem_cons]

theorem pairwise_insertDesc {α : Type} (id : Id) (v : α) (l : List (Id × α))
    (hsort : (priorities l).Pairwise (· > ·))
    (hfree : id.priority ∉ priorities l) :
    (priorities (insertDesc id v l)).Pairwise (· > ·) := by
  induction l with
  | nil => simp [insertDesc, priorities]
  | cons q rest ih =>
    simp only [priorities, List.map_cons, List.pairwise_cons] at hsort
    simp only [priorities, List.map_cons, List.mem_cons] at hfree
    push_neg at hfree
    simp only [insertDesc]
    by_cases hq : q.1.priority > id.priority
    · simp only [hq, if_true, priorities, List.map_cons, List.pairwise_cons]
      refine ⟨?_, ih hsort.2 hfree.2⟩
      intro x hx
      rcases (mem_priorities_insertDesc id v rest x).1 hx with rfl | hx2
      · exact hq
      · exact hsort.1 x hx2
    · simp only [hq, if_false, priorities, List.map_cons, List.pairwise_cons]
      have hlt : q.1.priority < id.priority := by
        rcases lt_or_eq_of_le (not_lt.1 hq) with h | h
        · exact h
        · exact absurd h.symm hfree.1
      refine ⟨?_, hsort.1, hsort.2⟩
      intro x hx
      rcases List.mem_cons.1 hx with rfl | hx2
      · exact hlt
      · exact lt_trans (hsort.1 x hx2) hlt

theorem addSortList_sorted {α : Type} (l : List (Id × α)) (v : α) :
    ∀ (n : Nat) (id : Id) (r : List (Id × α)),
      (id.priority - i32Min).toNat = n →
      (priorities l).Pairwise (· > ·) →
      addSortList l id v = some r →
      (priorities r).Pairwise (· > ·) := by
  intro n
  induction n using Nat.strong_induction_on with
  | _ n ih =>
    intro id r hn hsort heq
    unfold addSortList at heq
    split at heq
    · split at heq
      · split at heq
        case isTrue h3 =>
          exact ih ((id.priority - 1 - i32Min).toNat) (by omega) _ r rfl hsort heq
        case isFalse h3 => exact absurd heq (by simp)
      · cases heq
        rw [priorities_replaceAt]
        exact hsort
    case isFalse h1 =>
      cases heq
      exact pairwise_insertDesc id v l hsort (fun hmem => h1 ((hasPriority_iff l _).mpr hmem))

theorem addSortList_no_override_free {α : Type} (l : List (Id × α)) (v : α) :
    ∀ (n : Nat) (id : Id) (r : List (Id × α)),
      (id.priority - i32Min).toNat = n →
      id.no_override = true →
      i32Min ≤ id.priority →
      addSortList l id v = some r →
      ∃ q : Int, q ≤ id.priority ∧ q ∉ priorities l ∧
        (∀ q', q < q' → q' ≤ id.priority → q' ∈ priorities l) ∧
        r = insertDesc { id with priority := q } v l := by
  intro n
  induction n using Nat.strong_induction_on with
  | _ n ih =>
    intro id r hn hno hge heq
    obtain ⟨pr, nm, no⟩ := id
    simp only at hno hge hn heq ⊢
    subst hno
    unfold addSortList at heq
    split at heq
    case isTrue h1 =>
      rw [if_pos rfl] at heq
      split at heq
      case isTrue h3 =>
        obtain ⟨q, hq1, hq2, hq3, hq4⟩ :=
          ih ((pr - 1 - i32Min).toNat) (by simp only at h3; omega)
            ⟨pr - 1, nm, true⟩ r rfl rfl
            (by simp only at h3; show i32Min ≤ pr - 1; omega) heq
        simp only at hq1 hq3 hq4
        refine ⟨q, by omega, hq2, ?_, hq4⟩
        intro q' hlt hle
        by_cases hq' : q' ≤ pr - 1
        · exact hq3 q' hlt hq'
        · have : q' = pr := by omega
          subst this
          exact (hasPriority_iff l _).mp h1
      case isFalse h3 => exact absurd heq (by simp)
    case isFalse h1 =>
      cases heq
      refine ⟨pr, le_refl _, fun hmem => h1 ((hasPriority_iff l _).mpr hmem),
        fun q' hlt hle => absurd (lt_of_lt_of_le hlt hle) (lt_irrefl _), ?_⟩
      rfl

theorem addSortList_min_none {α : Type} (l : List (Id × α)) (id : Id) (v : α)
    (hno : id.no_override = true) (hp : id.priority = i32Min)
    (hocc : hasPriority l i32Min = true) :
    addSortList l id v = none := by
  unfold addSortList
  rw [hp, hocc, hno]
  simp

/-- **C6.** Each priority-ordered extension list is kept sorted in descending
priority by every registration through `add_sort_list!`; when an `Id` with
`no_override` set is registered at an occupied priority, its priority is
decremented by one repeatedly until a free slot is found (the entry lands at the
greatest free priority `q ≤ id.priority`, every priority strictly between being
occupied); and attempting to decrement below `i32::MIN` — i.e. `checked_sub`
failing at an occupied `i32::MIN` — panics (modelled as `none`). -/
theorem add_sort_list_spec {α : Type} (l : List (Id × α)) (id : Id) (v : α)
    (hsort : (priorities l).Pairwise (· > ·)) :
    (∀ r, addSortList l id v = some r → (priorities r).Pairwise (· > ·)) ∧
    (id.no_override = true → i32Min ≤ id.priority →
      ∀ r, addSortList l id v = some r →
        ∃ q : Int, q ≤ id.priority ∧ q ∉ priorities l ∧
          (∀ q', q < q' → q' ≤ id.priority → q' ∈ priorities l) ∧
          r = insertDesc { id with priority := q } v l) ∧
    (id.no_override = true → id.priority = i32Min → hasPriority l i32Min = true →
      addSortList l id v = none) := by
  refine ⟨fun r heq => addSortList_sorted l v _ id r rfl hsort heq,
    fun hno hge r heq => addSortList_no_override_free l v _ id r rfl hno hge heq,
    fun hno hp hocc => addSortList_min_none l id v hno hp hocc⟩

/-- Witness for C6: registering priority `5` with `no_override` into a list
already holding priorities `5 > 3` succeeds with a still strictly-descending
list, and registering `no_override` at an occupied `i32::MIN` panics. -/
theorem add_sort_list_spec_witness :
    (priorities [((⟨5, none, false⟩ : Id), (0 : Nat)), (⟨4, none, true⟩, 9),
      (⟨3, none, false⟩, 1)]).Pairwise (· > ·) ∧
    addSortList [((⟨i32Min, none, false⟩ : Id), (0 : Nat))] ⟨i32Min, none, true⟩ 2 =
      none := by
  have h1 := add_sort_list_spec
    [((⟨5, none, false⟩ : Id), (0 : Nat)), (⟨3, none, false⟩, 1)]
    ⟨5, none, true⟩ 9 (by decide)
  have h2 := add_sort_list_spec [((⟨i32Min, none, false⟩ : Id), (0 : Nat))]
    ⟨i32Min, none, true⟩ 2 (by decide)
  refine ⟨h1.1 _ ?_, h2.2.2 rfl rfl (by decide)⟩
  unfold addSortList
  norm_num [hasPriority, i32Min]
  unfold addSortList
  norm_num [hasPriority, insertDesc, i32Min]

/-- **C7 (counterexample).** The claim says two hooks registered at equal
priority without `no_override` are both retained; in fact `add_sort_list!`
hits the `Ok(pos)` branch and overwrites the existing entry: registering
payload `1` at the already-occupied priority `5` leaves a one-element list
holding only the new payload. -/
theorem add_sort_list_equal_priority_replaces :
    addSortList [((⟨5, none, false⟩ : Id), (0 : Nat))] ⟨5, none, false⟩ 1 =
      some [(⟨5, none, false⟩, 1)] ∧
    ¬ ((addSortList [((⟨5, none, false⟩ : Id), (0 : Nat))] ⟨5, none, false⟩ 1).map
        List.length = some 2) := by
  constructor
  · unfold addSortList
    norm_num [hasPriority, replaceAt]
  · unfold addSortList
    norm_num [hasPriority, replaceAt]

/-- **C7 (amended).** When a hook is registered at an equal priority without
`no_override`, the new entry replaces the existing equal-priority entry in
place: the list keeps exactly one entry per priority (its priority multiset is
unchanged), and only the later registration remains to be executed. -/
theorem add_sort_list_equal_priority_override {α : Type} (l : List (Id × α))
    (id : Id) (v : α) (hocc : hasPriority l id.priority = true)
    (hno : id.no_override = false) :
    addSortList l id v = some (replaceAt l id v) ∧
    priorities (replaceAt l id v) = priorities l := by
  constructor
  · unfold addSortList
    rw [hocc, hno]
    simp
  · exact priorities_replaceAt l id v

/-- Witness for the amended C7 at a concrete registration. -/
theorem add_sort_list_equal_priority_override_witness :
    addSortList [((⟨5, none, false⟩ : Id), (0 : Nat))] ⟨5, none, false⟩ 2 =
      some (replaceAt [((⟨5, none, false⟩ : Id), (0 : Nat))] ⟨5, none, false⟩ 2) ∧
    priorities (replaceAt [((⟨5, none, false⟩ : Id), (0 : Nat))] ⟨5, none, false⟩ 2) =
      priorities [((⟨5, none, false⟩ : Id), (0 : Nat))] :=
  add_sort_list_equal_priority_override _ _ _ (by decide) rfl

/-! ### `resolve_prime` lemmas -/

theorem resolve_prime_append (l₁ l₂ : List (String → Option String)) (req : String) :
    resolve_prime (l₁ ++ l₂) req = l₂.foldl primeStep (resolve_prime l₁ req) := by
  simp [resolve_prime, List.foldl_append]

theorem foldl_primeStep_none (ys : List (String → Option String))
    (hys : ∀ h ∈ ys, ∀ s, h s = none) (s : String × Option String) :
    ys.foldl primeStep s = s := by
  induction ys generalizing s with
  | nil => rfl
  | cons h rest ih =>
    have hh : primeStep s h = s := by
      simp [primeStep, hys h (List.mem_cons_self h rest) s.1]
    rw [List.foldl_cons, hh]
    exact ih (fun g hg t => hys g (List.mem_cons_of_mem h hg) t) s

/-- **C3.** For two prime hooks `H_a` and `H_b` with `H_a` earlier in the
priority-sorted list (higher priority), the URI returned by `H_a` is applied to
the request `H_b` observes: after processing `xs ++ H_a :: ys` (with the hooks
between them returning `None`), the request URI equals `H_a`'s returned URI `u`
— unless `u`'s path starts with `/./`, in which case the request is left
unchanged and `u` is held aside as the override return value.  The last
conjunct makes "the request `H_b` observes" explicit: any later hook `hB` is
folded over the state produced by the earlier hooks. -/
theorem resolve_prime_chain (xs ys : List (String → Option String))
    (hA : String → Option String) (req u : String)
    (hret : hA (resolve_prime xs req).1 = some u)
    (hys : ∀ h ∈ ys, ∀ s, h s = none) :
    (strStartsWith u ("/./") = false →
      (resolve_prime (xs ++ hA :: ys) req).1 = u) ∧
    (strStartsWith u ("/./") = true →
      (resolve_prime (xs ++ hA :: ys) req).1 = (resolve_prime xs req).1 ∧
      (resolve_prime (xs ++ hA :: ys) req).2 = some u) ∧
    (∀ (hB : String → Option String) (zs : List (String → Option String)),
      resolve_prime (xs ++ hA :: ys ++ hB :: zs) req =
        (hB :: zs).foldl primeStep (resolve_prime (xs ++ hA :: ys) req)) := by
  have key : resolve_prime (xs ++ hA :: ys) req =
      primeStep (resolve_prime xs req) hA := by
    rw [resolve_prime_append, List.foldl_cons]
    exact foldl_primeStep_none ys hys _
  refine ⟨?_, ?_, ?_⟩
  · intro hsent
    rw [key]
    simp [primeStep, hret, hsent]
  · intro hsent
    rw [key]
    constructor <;> simp [primeStep, hret, hsent]
  · intro hB zs
    have : xs ++ hA :: ys ++ hB :: zs = (xs ++ hA :: ys) ++ hB :: zs := by
      simp
    rw [this, resolve_prime_append]

/-- Witness for C3: a rewriting hook hands its URI to later hooks, and a
sentinel-returning hook leaves the request alone while setting the override. -/
theorem resolve_prime_chain_witness :
    (resolve_prime [(fun _ => some ("/first")), (fun _ => some ("/second")),
      (fun _ => none)] ("/")).1 = "/second" ∧
    (resolve_prime [(fun _ => some ("/first")), (fun _ => some ("/./sent")),
      (fun _ => none)] ("/")).1 = "/first" ∧
    (resolve_prime [(fun _ => some ("/first")), (fun _ => some ("/./sent")),
      (fun _ => none)] ("/")).2 = some ("/./sent") := by
  have h1 := resolve_prime_chain [fun _ => some ("/first")] [fun _ => none]
    (fun _ => some ("/second")) ("/") ("/second") rfl
    (by
      intro h hh s
      simp only [List.mem_singleton] at hh
      subst hh
      rfl)
  have h2 := resolve_prime_chain [fun _ => some ("/first")] [fun _ => none]
    (fun _ => some ("/./sent")) ("/") ("/./sent") rfl
    (by
      intro h hh s
      simp only [List.mem_singleton] at hh
      subst hh
      rfl)
  refine ⟨?_, ?_, ?_⟩
  · have := h1.1 (by decide)
    simpa using this
  · have := (h2.2.1 (by decide)).1
    simpa using this
  · have := (h2.2.1 (by decide)).2
    simpa using this

/-- **C10.** `ByteResponse::into_body` goes through `into_last`, whose
`assert!(split_at < len)` fails — panics — whenever the `Merged` body is empty,
i.e. whenever the parsed header spans the whole buffer (`startsAt ≥ len`),
even though `into_last`'s doc comment claims a panic only when `split_at`
is *greater* than `len()` (second conjunct: at `startsAt = len` the documented
condition is false, yet the call panics).  Under the asserted precondition
`split_at < len` the unsafe split succeeds and touches exactly the `len -
split_at` initialized trailing elements (third conjunct). -/
theorem into_body_empty_panics (vec : List Nat) (starts : Nat) (pb : Bool)
    (hempty : vec.length ≤ starts) :
    (ByteResponse.Merged vec starts pb).into_body = none ∧
    (starts = vec.length → ¬ starts > vec.length) ∧
    (∀ s, s < vec.length →
      into_last vec s = some (vec.drop s) ∧ (vec.drop s).length = vec.length - s) := by
  refine ⟨?_, ?_, ?_⟩
  · simp [ByteResponse.into_body, into_last]
    omega
  · omega
  · intro s hs
    exact ⟨by simp [into_last, hs], by simp⟩

/-- Witness for C10: a `Merged` response whose header spans the whole
3-byte buffer panics in `into_body`, and a strictly in-range split succeeds. -/
theorem into_body_empty_panics_witness :
    (ByteResponse.Merged [1, 2, 3] 3 false).into_body = none ∧
    into_last [1, 2, 3] 1 = some [2, 3] := by
  have h := into_body_empty_panics [1, 2, 3] 3 false (by decide)
  exact ⟨h.1, (h.2.2 1 (by decide)).1⟩

/-- **C2 (failing input).** The claim says `CacheType::resolve` filters the
stored variants on *every* vary axis.  In fact only the first axis filters:
for the later axes the source fetches `headers.get(*header_to_compare)` but
discards the result, so every variant surviving the first axis is kept.
Concretely, with axes `[accept-encoding, accept-language]`, variants recording
`(identity, de)` (inserted first, id 10) and `(identity, en)` (id 20), and a
request sending `accept-encoding: identity` and `accept-language: en`, the
claim demands the `en` variant (id 20); the code returns the `de` variant
(id 10), never filtering on `accept-language`. -/
theorem resolve_vary_second_axis_ignored :
    resolveVary
      ⟨["accept-encoding", "accept-language"],
        [(["identity", "de"], 10), (["identity", "en"], 20)]⟩
      (fun name =>
        if name = "accept-encoding" then some ("identity")
        else if name = "accept-language" then some ("en") else none) = some 10 ∧
    ¬ (resolveVary
      ⟨["accept-encoding", "accept-language"],
        [(["identity", "de"], 10), (["identity", "en"], 20)]⟩
      (fun name =>
        if name = "accept-encoding" then some ("identity")
        else if name = "accept-language" then some ("en") else none) = some 20) := by
  constructor
  · decide
  · decide

/-- **C5.** For a request whose resolved content type is in the
already-compressed families, the compression step prefers `identity`
(no `406` override) when the request's `Accept-Encoding` does not prohibit
identity; when identity is prohibited (`identity;q=0`), `byte_response` is
replaced by the default `406` error response. -/
theorem compressed_family_prefers_identity (content header : String)
    (hfam : isCompressedFamily content = true) :
    ((compression_from_header header).2 = false →
      compressionDecision content (some header) =
        (CompressionAlgorithm.Identity, none)) ∧
    ((compression_from_header header).2 = true →
      (compressionDecision content (some header)).2 = some 406) := by
  constructor
  · intro hok
    simp [compressionDecision, hfam, hok]
  · intro hforbidden
    simp [compressionDecision, hfam, hforbidden]

/-- Witness for C5: a JPEG with `Accept-Encoding: identity;q=0` yields the
406 override, while plain `identity` keeps the identity encoding. -/
theorem compressed_family_prefers_identity_witness :
    (compressionDecision ("image/jpeg") (some ("identity;q=0"))).2 = some 406 ∧
    compressionDecision ("image/jpeg") (some ("gzip;q=0.8, identity")) =
      (CompressionAlgorithm.Identity, none) := by
  have h1 := compressed_family_prefers_identity ("image/jpeg") ("identity;q=0")
    (by decide)
  have h2 := compressed_family_prefers_identity ("image/jpeg")
    ("gzip;q=0.8, identity") (by decide)
  exact ⟨h1.2 (by decide), h2.1 (by decide)⟩

/-! ### String helpers for the CORS and error-page proofs -/

theorem string_eq_of_data (x y : String) (h : x.data = y.data) : x = y := by
  cases x
  cases y
  cases h
  rfl

theorem strData_append (x y : String) : (x ++ y).data = x.data ++ y.data := rfl

theorem stripPrefixChars_append (pre rest : List Char) :
    stripPrefixChars pre (pre ++ rest) = some rest := by
  induction pre with
  | nil => rfl
  | cons p ps ih => simp [stripPrefixChars, ih]

/-- **C4.** `Cors::check_cors_request` classifies a request with no `Origin`
header, or with an `Origin` whose scheme, host and port equal those of the
request URI (the code's `is_part_of_origin`: matching scheme and equal
authority string `host[:port]`), as same-origin — returning allowed methods
`{GET, HEAD, OPTIONS}` and no allowed headers — for *every* configured rule
set.  The third conjunct spells the equality reading out: an origin literally
written `<scheme>://<authority>` of a URI with that scheme and authority is
always classified same-origin. -/
theorem check_cors_same_origin (cors : Cors) (parseUri : String → Option ModelUri)
    (uri : ModelUri) (method : Method) :
    Cors.check_cors_request cors parseUri none uri method =
      some ([Method.GET, Method.HEAD, Method.OPTIONS], []) ∧
    (∀ origin, Cors.is_part_of_origin origin uri = true →
      Cors.check_cors_request cors parseUri (some origin) uri method =
        some ([Method.GET, Method.HEAD, Method.OPTIONS], [])) ∧
    (∀ s a, (s = "https" ∨ s = "http") → uri.scheme = some s →
      uri.authority = some a →
      Cors.check_cors_request cors parseUri (some (s ++ "://" ++ a)) uri method =
        some ([Method.GET, Method.HEAD, Method.OPTIONS], [])) := by
  have same : ∀ origin, Cors.is_part_of_origin origin uri = true →
      Cors.check_cors_request cors parseUri (some origin) uri method =
        some ([Method.GET, Method.HEAD, Method.OPTIONS], []) := by
    intro origin h
    simp [Cors.check_cors_request, h]
  refine ⟨rfl, same, ?_⟩
  intro s a hs hscheme hauth
  apply same
  rcases hs with rfl | rfl
  · unfold Cors.is_part_of_origin
    have h1 : ("https" ++ "://" ++ a).data = ("https://").data ++ a.data := rfl
    rw [h1, stripPrefixChars_append, hscheme]
    simp [hauth, show String.mk a.data = a from rfl]
  · unfold Cors.is_part_of_origin
    have h0 : ("http" ++ "://" ++ a).data =
        'h' :: 't' :: 't' :: 'p' :: ':' :: '/' :: '/' :: a.data := rfl
    have hn : stripPrefixChars (("https://").data)
        ('h' :: 't' :: 't' :: 'p' :: ':' :: '/' :: '/' :: a.data) = none := by
      simp [show ("https://").data = ['h','t','t','p','s',':','/','/'] from rfl,
        stripPrefixChars]
    have h2 : ('h' :: 't' :: 't' :: 'p' :: ':' :: '/' :: '/' :: a.data) =
        ("http://").data ++ a.data := rfl
    rw [h0, hn, h2, stripPrefixChars_append, hscheme]
    simp [hauth, show String.mk a.data = a from rfl]

/-- Witness for C4 against a rule set that denies everything (`*` with an
empty allow list): the bare request, an authority-equal origin, and an
explicitly built `https://host` origin are all classified same-origin. -/
theorem check_cors_same_origin_witness :
    Cors.check_cors_request ⟨[("*", ⟨[], false, [], []⟩)]⟩ (fun _ => none) none
      ⟨some ("https"), some ("example.com"), some ("example.com"), none, "/x"⟩
      Method.GET = some ([Method.GET, Method.HEAD, Method.OPTIONS], []) ∧
    Cors.check_cors_request ⟨[("*", ⟨[], false, [], []⟩)]⟩ (fun _ => none)
      (some ("https://example.com"))
      ⟨some ("https"), some ("example.com"), some ("example.com"), none, "/x"⟩
      Method.POST = some ([Method.GET, Method.HEAD, Method.OPTIONS], []) ∧
    Cors.check_cors_request ⟨[("*", ⟨[], false, [], []⟩)]⟩ (fun _ => none)
      (some ("https" ++ "://" ++ "example.com"))
      ⟨some ("https"), some ("example.com"), some ("example.com"), none, "/x"⟩
      Method.PUT = some ([Method.GET, Method.HEAD, Method.OPTIONS], []) := by
  have h1 := check_cors_same_origin ⟨[("*", ⟨[], false, [], []⟩)]⟩ (fun _ => none)
    ⟨some ("https"), some ("example.com"), some ("example.com"), none, "/x"⟩
    Method.GET
  have h2 := check_cors_same_origin ⟨[("*", ⟨[], false, [], []⟩)]⟩ (fun _ => none)
    ⟨some ("https"), some ("example.com"), some ("example.com"), none, "/x"⟩
    Method.POST
  have h3 := check_cors_same_origin ⟨[("*", ⟨[], false, [], []⟩)]⟩ (fun _ => none)
    ⟨some ("https"), some ("example.com"), some ("example.com"), none, "/x"⟩
    Method.PUT
  exact ⟨h1.1, h2.2.1 ("https://example.com") (by decide),
    h3.2.2 ("https") ("example.com") (Or.inl rfl) rfl rfl⟩

/-- **C8.** `default_error` serves `<host_path>/errors/<status>.html` as the
error body when that file can be read, and the hardcoded HTML template
otherwise; the response always carries `content-type: text/html;
charset=utf-8` and `content-encoding: identity`, and the given status. -/
theorem default_error_spec (code : Nat) (hostPath : String)
    (message : Option String) (fs : String → Option String) :
    (("content-type", "text/html; charset=utf-8") ∈
        (default_error code (some hostPath) message fs).headers ∧
      ("content-encoding", "identity") ∈
        (default_error code (some hostPath) message fs).headers) ∧
    (default_error code (some hostPath) message fs).body =
      (match fs (hostPath ++ "/errors/" ++ toString code ++ ".html") with
       | some f => f
       | none => hardcoded_error_body code message) ∧
    (default_error code (some hostPath) message fs).status = code := by
  have hpath : make_path hostPath ("errors") (toString code) (some ("html")) =
      hostPath ++ "/errors/" ++ toString code ++ ".html" := by
    apply string_eq_of_data
    simp [make_path, strData_append, List.append_assoc,
      show ("/").data = ['/'] from rfl,
      show ("errors").data = ['e','r','r','o','r','s'] from rfl,
      show (".").data = ['.'] from rfl,
      show ("html").data = ['h','t','m','l'] from rfl,
      show ("/errors/").data = ['/','e','r','r','o','r','s','/'] from rfl,
      show (".html").data = ['.','h','t','m','l'] from rfl]
  refine ⟨⟨?_, ?_⟩, ?_, ?_⟩
  · simp [default_error]
  · simp [default_error]
  · simp only [default_error, hpath]
  · rfl

end Kvarn
